import Mathlib

/-!
Shallow embedding of the document model of `src/js/timeline.js` (class `Json`,
the data-manipulation core, plus the era-materialization loop of
`Timeline.refresh`).

Modelling conventions:
* JavaScript objects used as string-keyed maps (`item_categories`, `eras`,
  `markers`) are association lists in insertion order; JS objects cannot hold
  a duplicate key, and property assignment on a fresh key appends at the end,
  so on lists with distinct keys the helpers below coincide with JS semantics.
* Timestamps (`Date` values and item `start`/`end`) are integers (the value of
  `Date.prototype.getTime`).
* A field of a JS record that may be absent is an `Option`; `none` stands for
  an absent (or `null`/`undefined`) field, `some v` for a present proper value.
* `dispatchEvent(this.#eventUpdated)` calls are counted: every operation
  returns, besides its boolean result and the new document, the number of
  change notifications it dispatched.
* `uuidv4()` is nondeterministic; operations that call it take the generated
  id as an explicit argument.
-/

namespace Timeline

/-- Style category record `{fg, bg, border}` stored in `item_categories`. -/
structure Category where
  fg : String
  bg : String
  border : String
deriving DecidableEq, Repr

namespace VIS

namespace ITEM

/-- The constant `VIS.ITEM.DEFAULT_STYLE` of the source. -/
def DEFAULT_STYLE : Category :=
  { fg := "#1a1a1a", bg := "#d5ddf6", border := "#97b0f8" }

namespace TYPE

/-- The constant `VIS.ITEM.TYPE.BOX`. -/
def BOX : String := "box"

/-- The constant `VIS.ITEM.TYPE.POINT`. -/
def POINT : String := "point"

/-- The constant `VIS.ITEM.TYPE.RANGE`. -/
def RANGE : String := "range"

/-- The constant `VIS.ITEM.TYPE.BACKGROUND`. -/
def BACKGROUND : String := "background"

end TYPE

end ITEM

end VIS

/-- The `configuration` record: `{ locale, startDate?, endDate? }`. -/
structure Config where
  locale : Option String
  startDate : Option String
  endDate : Option String
deriving DecidableEq, Repr

/-- A group node of the `groups` forest:
`{id, name, category, position, visible, childs}`. -/
inductive Group : Type where
  | mk (id name category : String) (position : Int) (visible : Bool)
      (childs : List Group)

/-- Field `id` of a group. -/
def Group.id : Group → String
  | .mk i _ _ _ _ _ => i

/-- Field `name` of a group. -/
def Group.name : Group → String
  | .mk _ n _ _ _ _ => n

/-- Field `category` of a group. -/
def Group.category : Group → String
  | .mk _ _ c _ _ _ => c

/-- Field `position` of a group. -/
def Group.position : Group → Int
  | .mk _ _ _ p _ _ => p

/-- Field `visible` of a group. -/
def Group.visible : Group → Bool
  | .mk _ _ _ _ v _ => v

/-- Field `childs` of a group. -/
def Group.childs : Group → List Group
  | .mk _ _ _ _ _ cs => cs

/-- An item of the `items` list. All fields are optional: `addItem` stores the
caller's record verbatim, so an item has exactly the fields its payload had.
`end` is a Lean keyword, hence the field is spelled `end_`. -/
structure Item where
  id : Option String
  group : Option String
  content : Option String
  className : Option String
  start : Option Int
  end_ : Option Int
  type : Option String
  description : Option String
deriving DecidableEq, Repr

/-- An era record `{text, start, end, color, visible}`. -/
structure Era where
  text : String
  start : Int
  end_ : Int
  color : String
  visible : Bool
deriving DecidableEq, Repr

/-- A marker record `{name, date}`. -/
structure Marker where
  name : String
  date : Int
deriving DecidableEq, Repr

/-- Insertion-ordered string-keyed map, as a JS object holds it. -/
abbrev Smap (α : Type) : Type := List (String × α)

/-- JS `key in obj`. -/
def Smap.has (m : Smap α) (k : String) : Bool :=
  m.any (fun kv => kv.1 == k)

/-- JS `obj[key]` (reading), `none` when the key is absent. -/
def Smap.get (m : Smap α) (k : String) : Option α :=
  List.lookup k m

/-- JS `delete obj[key]`. -/
def Smap.del (m : Smap α) (k : String) : Smap α :=
  m.filter (fun kv => kv.1 != k)

/-- JS `obj[key].f = v`: update a field of the record stored at `k`. -/
def Smap.modify (m : Smap α) (k : String) (f : α → α) : Smap α :=
  m.map (fun kv => if kv.1 == k then (kv.1, f kv.2) else kv)

/-- The in-memory document `this.#data` in its operational shape: the six
top-level collections, with the three keyed collections held as maps. -/
structure Data where
  configuration : Config
  groups : List Group
  items : List Item
  item_categories : Smap Category
  eras : Smap Era
  markers : Smap Marker

/-- Result of a mutation: the boolean the method returns, the document after
the call, and how many `updated` events were dispatched during the call. -/
structure MutRes where
  ret : Bool
  doc : Data
  events : Nat

/-- Core of `Json.removeGroup(id, parent)`: walk the sibling list; on an `id`
match splice the node out and dispatch (one event); otherwise recurse into the
node's `childs` — a successful recursion dispatched its own events and the
caller dispatches one more; otherwise continue with the next sibling.
Returns the updated sibling list and the event count when a node was found. -/
def removeGroupGo (id : String) : List Group → Option (List Group × Nat)
  | [] => none
  | Group.mk i n c p v childs :: gs =>
    if i == id then
      some (gs, 1)
    else
      match removeGroupGo id childs with
      | some (childs2, k) => some (Group.mk i n c p v childs2 :: gs, k + 1)
      | none =>
        match removeGroupGo id gs with
        | some (gs2, k) => some (Group.mk i n c p v childs :: gs2, k)
        | none => none

/-- `Json.removeGroup(id)` called from the root (`parent = null`). -/
def Json.removeGroup (id : String) (d : Data) : MutRes :=
  match removeGroupGo id d.groups with
  | some (gs, k) => ⟨true, { d with groups := gs }, k⟩
  | none => ⟨false, d, 0⟩

/-- `Json.addGroup(name)`: reject an empty name, else push a new group at the
end of the root list with `position` = previous root count + 1, `visible` =
true and no children; `uuidv4()` is passed in as `newId`. -/
def Json.addGroup (name : String) (newId : String) (d : Data) : MutRes :=
  if name == "" then
    ⟨false, d, 0⟩
  else
    ⟨true,
     { d with groups := d.groups ++
        [Group.mk newId name "" (Int.ofNat d.groups.length + 1) true []] },
     1⟩

/-- Core of `Json.renameGroup(id, name, parent)`: same traversal as
`removeGroupGo`, setting `name` on the matched node. -/
def renameGroupGo (id : String) (name : String) :
    List Group → Option (List Group × Nat)
  | [] => none
  | Group.mk i n c p v childs :: gs =>
    if i == id then
      some (Group.mk i name c p v childs :: gs, 1)
    else
      match renameGroupGo id name childs with
      | some (childs2, k) => some (Group.mk i n c p v childs2 :: gs, k + 1)
      | none =>
        match renameGroupGo id name gs with
        | some (gs2, k) => some (Group.mk i n c p v childs :: gs2, k)
        | none => none

/-- `Json.renameGroup(id, name)` from the root: an empty `name` is rejected
before any search. -/
def Json.renameGroup (id : String) (name : String) (d : Data) : MutRes :=
  if name == "" then
    ⟨false, d, 0⟩
  else
    match renameGroupGo id name d.groups with
    | some (gs, k) => ⟨true, { d with groups := gs }, k⟩
    | none => ⟨false, d, 0⟩

/-- Core of `Json.toggleGroupVisibility(id, parent)`: same traversal, negating
`visible` on the matched node. -/
def toggleGroupGo (id : String) : List Group → Option (List Group × Nat)
  | [] => none
  | Group.mk i n c p v childs :: gs =>
    if i == id then
      some (Group.mk i n c p (!v) childs :: gs, 1)
    else
      match toggleGroupGo id childs with
      | some (childs2, k) => some (Group.mk i n c p v childs2 :: gs, k + 1)
      | none =>
        match toggleGroupGo id gs with
        | some (gs2, k) => some (Group.mk i n c p v childs :: gs2, k)
        | none => none

/-- `Json.toggleGroupVisibility(id)` from the root. -/
def Json.toggleGroupVisibility (id : String) (d : Data) : MutRes :=
  match toggleGroupGo id d.groups with
  | some (gs, k) => ⟨true, { d with groups := gs }, k⟩
  | none => ⟨false, d, 0⟩

/-- Depth (number of `childs` levels below the root list) at which the group
search of the three operations above first finds `id`, in their traversal
order; `none` when `id` is absent from the forest. -/
def findDepthGo (id : String) : List Group → Option Nat
  | [] => none
  | Group.mk i _ _ _ _ childs :: gs =>
    if i == id then
      some 0
    else
      match findDepthGo id childs with
      | some k => some (k + 1)
      | none => findDepthGo id gs

/-- Stable insertion of a group into a sibling list already sorted by
`position`: the new element goes in front of the first element whose
`position` is not strictly smaller, so elements with an equal `position`
that were originally earlier stay earlier. -/
def insertByPosition (g : Group) : List Group → List Group
  | [] => [g]
  | h :: t =>
    if h.position < g.position then h :: insertByPosition g t
    else g :: h :: t

/-- Stable sort of a sibling list by ascending `position`. The source sorts
with the comparator `a.position < b.position ? -1 : a.position > b.position ?
1 : 0` through `Array.prototype.sort`, which is stable; a consistent
comparator determines the stable-sorted result uniquely, and stable insertion
sort computes exactly that permutation. -/
def sortSiblings : List Group → List Group
  | [] => []
  | g :: gs => insertByPosition g (sortSiblings gs)

mutual

/-- One node under `Json.#sortGroups`: its `childs` list sorted recursively. -/
def sortGroupNode : Group → Group
  | Group.mk i n c p v childs =>
      Group.mk i n c p v (sortSiblings (sortChilds childs))

/-- `sortGroupNode` mapped over a sibling list. -/
def sortChilds : List Group → List Group
  | [] => []
  | g :: gs => sortGroupNode g :: sortChilds gs

end

/-- `Json.#sortGroups()` on a sibling list: the source sorts the list first
and then recurses into each element's `childs`; since the comparator reads
only `position`, which the recursion into `childs` leaves untouched, sorting
before or after the recursion yields the same list (`sortGroups_eq_source`
below proves the source's order of operations equal to this definition). -/
def sortGroups (gs : List Group) : List Group :=
  sortSiblings (sortChilds gs)

/-- The category-creation snippet `addItem` and `updateItem` share: when the
payload carries a `className` that `item_categories` does not know, store a
copy of the default style under that key (a property set on a fresh key
appends at the end of a JS object). -/
def categoriesAfterUpdate (cn : Option String) (cats : Smap Category) :
    Smap Category :=
  match cn with
  | some c =>
    if Smap.has cats c then cats
    else cats ++ [(c, VIS.ITEM.DEFAULT_STYLE)]
  | none => cats

/-- `Json.addItem(data)`: reject a null payload or one with no `id` field,
reject a duplicate `id` (scan of the items list), else push the payload and,
when it carries a `className` unknown to `item_categories`, append that
category with the default style; one event on success. -/
def Json.addItem (data : Option Item) (d : Data) : MutRes :=
  match data with
  | none => ⟨false, d, 0⟩
  | some it =>
    match it.id with
    | none => ⟨false, d, 0⟩
    | some _ =>
      if d.items.any (fun x => x.id == it.id) then
        ⟨false, d, 0⟩
      else
        let cats := categoriesAfterUpdate it.className d.item_categories
        ⟨true, { d with items := d.items ++ [it], item_categories := cats }, 1⟩

/-- Body of the `updateItem` match: apply, in source order, every field
present in the payload to the stored item, creating the payload's category
with the default style when it is unseen. -/
def applyItemUpdate (data : Item) (item : Item) (cats : Smap Category) :
    Item × Smap Category :=
  let item := match data.group with
    | some g => { item with group := some g }
    | none => item
  let item := match data.content with
    | some c => { item with content := some c }
    | none => item
  let cats := categoriesAfterUpdate data.className cats
  let item := match data.start with
    | some s => { item with start := some s }
    | none => item
  let item := match data.end_ with
    | some e => { item with end_ := some e }
    | none => item
  let item := match data.type with
    | some t => { item with type := some t }
    | none => item
  let item := match data.className with
    | some c => { item with className := some c }
    | none => item
  let item := match data.description with
    | some de => { item with description := some de }
    | none => item
  (item, cats)

/-- Scan of the items list in `Json.updateItem`: skip items whose `id`
differs, update the first match. -/
def updateItemGo (data : Item) (cats : Smap Category) :
    List Item → Option (List Item × Smap Category)
  | [] => none
  | item :: rest =>
    if item.id == data.id then
      let r := applyItemUpdate data item cats
      some (r.1 :: rest, r.2)
    else
      match updateItemGo data cats rest with
      | some (rest2, cats2) => some (item :: rest2, cats2)
      | none => none

/-- `Json.updateItem(data)`: reject a null payload or one with no `id`;
partial update of the first item with that `id`; one event on success. -/
def Json.updateItem (data : Option Item) (d : Data) : MutRes :=
  match data with
  | none => ⟨false, d, 0⟩
  | some it =>
    match it.id with
    | none => ⟨false, d, 0⟩
    | some _ =>
      match updateItemGo it d.item_categories d.items with
      | some (items2, cats2) =>
        ⟨true, { d with items := items2, item_categories := cats2 }, 1⟩
      | none => ⟨false, d, 0⟩

/-- Scan of the items list in `Json.removeItem`: splice out the first item
whose `id` equals the payload's. -/
def removeItemGo (pid : Option String) : List Item → Option (List Item)
  | [] => none
  | item :: rest =>
    if item.id == pid then
      some rest
    else
      match removeItemGo pid rest with
      | some rest2 => some (item :: rest2)
      | none => none

/-- `Json.removeItem(data)`: reject a null payload or one with no `id`;
remove the first item with that `id`; one event on success. -/
def Json.removeItem (data : Option Item) (d : Data) : MutRes :=
  match data with
  | none => ⟨false, d, 0⟩
  | some it =>
    match it.id with
    | none => ⟨false, d, 0⟩
    | some _ =>
      match removeItemGo it.id d.items with
      | some items2 => ⟨true, { d with items := items2 }, 1⟩
      | none => ⟨false, d, 0⟩

/-- JS truthiness of an optional string argument: absent, `null` and the
empty string are falsy. -/
def truthyStr : Option String → Bool
  | some s => !(s == "")
  | none => false

/-- `Json.addMarker(uuid, name, date)`: reject a present key, else store the
record at `uuid`; the method never dispatches an event. -/
def Json.addMarker (uuid name : String) (date : Int) (d : Data) : MutRes :=
  if Smap.has d.markers uuid then
    ⟨false, d, 0⟩
  else
    ⟨true, { d with markers := d.markers ++ [(uuid, ⟨name, date⟩)] }, 0⟩

/-- `Json.removeMarker(uuid)`: reject an absent key, else delete the entry;
never dispatches an event. -/
def Json.removeMarker (uuid : String) (d : Data) : MutRes :=
  if !(Smap.has d.markers uuid) then
    ⟨false, d, 0⟩
  else
    ⟨true, { d with markers := Smap.del d.markers uuid }, 0⟩

/-- `Json.updateMarker(uuid, name, date)`: reject an absent key; set `name`
when truthy (a `Date` argument, when passed, is a truthy object, hence
presence of `date` suffices); never dispatches an event. -/
def Json.updateMarker (uuid : String) (name : Option String)
    (date : Option Int) (d : Data) : MutRes :=
  if !(Smap.has d.markers uuid) then
    ⟨false, d, 0⟩
  else
    let ms := d.markers
    let ms := if truthyStr name then
        Smap.modify ms uuid (fun m => { m with name := name.getD m.name })
      else ms
    let ms := match date with
      | some t => Smap.modify ms uuid (fun m => { m with date := t })
      | none => ms
    ⟨true, { d with markers := ms }, 0⟩

/-- `Json.getEra(uuid)`: the stored record, or null when absent. -/
def Json.getEra (uuid : String) (d : Data) : Option Era :=
  Smap.get d.eras uuid

/-- `Json.addEra(uuid, text, startDate, endDate, color)`: reject a present
key, else store the record with `visible: true`; never dispatches an
event. -/
def Json.addEra (uuid text : String) (startDate endDate : Int)
    (color : String) (d : Data) : MutRes :=
  if Smap.has d.eras uuid then
    ⟨false, d, 0⟩
  else
    ⟨true,
     { d with eras :=
        d.eras ++ [(uuid, ⟨text, startDate, endDate, color, true⟩)] },
     0⟩

/-- `Json.removeEra(uuid)`: reject an absent key, else delete the entry;
never dispatches an event. -/
def Json.removeEra (uuid : String) (d : Data) : MutRes :=
  if !(Smap.has d.eras uuid) then
    ⟨false, d, 0⟩
  else
    ⟨true, { d with eras := Smap.del d.eras uuid }, 0⟩

/-- `Json.updateEra(uuid, text, startDate, endDate, color)`: reject an absent
key; apply each truthy argument; never dispatches an event. -/
def Json.updateEra (uuid : String) (text : Option String)
    (startDate endDate : Option Int) (color : Option String) (d : Data) :
    MutRes :=
  if !(Smap.has d.eras uuid) then
    ⟨false, d, 0⟩
  else
    let es := d.eras
    let es := if truthyStr text then
        Smap.modify es uuid (fun e => { e with text := text.getD e.text })
      else es
    let es := match startDate with
      | some t => Smap.modify es uuid (fun e => { e with start := t })
      | none => es
    let es := match endDate with
      | some t => Smap.modify es uuid (fun e => { e with end_ := t })
      | none => es
    let es := if truthyStr color then
        Smap.modify es uuid (fun e => { e with color := color.getD e.color })
      else es
    ⟨true, { d with eras := es }, 0⟩

/-- `Json.toggleEraVisibility(uuid)`: reject an absent key, else negate
`visible`; never dispatches an event. -/
def Json.toggleEraVisibility (uuid : String) (d : Data) : MutRes :=
  if !(Smap.has d.eras uuid) then
    ⟨false, d, 0⟩
  else
    ⟨true,
     { d with eras :=
        Smap.modify d.eras uuid (fun e => { e with visible := !e.visible }) },
     0⟩

/-- A record added to the widget's items `DataSet` by the era loop of
`Timeline.refresh`. -/
structure VisItem where
  id : String
  className : String
  content : String
  start : Int
  end_ : Int
  type : String
deriving DecidableEq, Repr

/-- The era loop of `Timeline.refresh` (`Object.entries(this.#json.data.eras)`
in insertion order): skip an invisible era; skip an era whose end is not
strictly after its start (logging a diagnostic); otherwise add one
background-typed pseudo-item keyed and styled by the era's uuid. `refresh`
only reads the document — it mutates the widget's DataSets, never
`json.data`, so the eras map itself is untouched by materialization. -/
def materializeEra (kv : String × Era) : Option VisItem :=
  if !kv.2.visible then none
  else if kv.2.end_ ≤ kv.2.start then none
  else some
    { id := kv.1, className := kv.1, content := kv.2.text,
      start := kv.2.start, end_ := kv.2.end_,
      type := VIS.ITEM.TYPE.BACKGROUND }

/-- The era loop over `Object.entries(this.#json.data.eras)`, one entry at a
time in insertion order. -/
def materializeEras (eras : Smap Era) : List VisItem :=
  eras.filterMap materializeEra

/-- The uuids for which the era loop logs `console.error('Ignoring invalid
era: ' + id)`: visible eras whose end is not strictly after their start. -/
def eraDiagEntry (kv : String × Era) : Option String :=
  if kv.2.visible && decide (kv.2.end_ ≤ kv.2.start) then some kv.1 else none

/-- All uuids the era loop logs, in loop order. -/
def eraDiagnostics (eras : Smap Era) : List String :=
  eras.filterMap eraDiagEntry

/-- Shape of the `eras` field in a stored or freshly loaded document. A JSON
file may hold it as a string-keyed object (`map`), the shape every era
operation assumes; the backfill in `Json.load` instead writes a JS Array
(`arr`). A JS Array is an object too: `eras[uuid] = ...` on it stores a
string-keyed own property next to the numeric elements, so the array shape
carries both the numeric elements `es` and those properties `props`. -/
inductive ErasVal : Type where
  | arr (es : List Era) (props : Smap Era)
  | map (m : Smap Era)
deriving DecidableEq, Repr

/-- JS `uuid in eras` on either shape: a uuid (never an integer-like string)
can only be an own property name, not an index, of an array. -/
def ErasVal.hasKey : ErasVal → String → Bool
  | ErasVal.arr _ props, uuid => Smap.has props uuid
  | ErasVal.map m, uuid => Smap.has m uuid

/-- JS `eras[uuid] = e` on either shape: insertion into the object, or an
own string-keyed property set on the array. -/
def ErasVal.setProp : ErasVal → String → Era → ErasVal
  | ErasVal.arr es props, uuid, e => ErasVal.arr es (props ++ [(uuid, e)])
  | ErasVal.map m, uuid, e => ErasVal.map (m ++ [(uuid, e)])

/-- What `JSON.stringify` keeps of the `eras` field: an object serializes all
its entries, but an Array serializes by numeric indices only — its
string-keyed own properties are silently dropped. -/
def stringifyEras : ErasVal → ErasVal
  | ErasVal.arr es _ => ErasVal.arr es []
  | ErasVal.map m => ErasVal.map m

/-- A parsed storage document: each of the six top-level fields may be absent
(`none` also stands for a present `null`, which the falsy backfill checks of
`Json.load` treat the same way). -/
structure RawDoc where
  configuration : Option Config
  groups : Option (List Group)
  items : Option (List Item)
  item_categories : Option (Smap Category)
  eras : Option ErasVal
  markers : Option (Smap Marker)

/-- `this.#data` right after `Json.load`: all six fields present, the `eras`
field in whichever shape load produced. -/
structure LoadedData where
  configuration : Config
  groups : List Group
  items : List Item
  item_categories : Smap Category
  eras : ErasVal
  markers : Smap Marker

/-- The document `JSON.parse('\x7b\x7d')` would give: every field absent. -/
def emptyRawDoc : RawDoc := ⟨none, none, none, none, none, none⟩

/-- `Json.load()`. `input = none` models a read or `JSON.parse` failure; the
`catch` then substitutes the empty object. When parsing succeeds,
`this.#sortGroups()` still runs inside the same `try`: if the parsed record
has no `groups` field it evaluates `undefined.sort`, throws, and the `catch`
discards the parsed record, replacing it by the empty object. Afterwards each
missing field is backfilled — `configuration`, `item_categories` and
`markers` with empty objects, `items` and `groups` with empty arrays, and
`eras` with an empty ARRAY (`this.#data.eras = []`), not an object. Exactly
one `updated` event is dispatched, unconditionally. -/
def Json.load (input : Option RawDoc) : LoadedData × Nat :=
  let raw : RawDoc :=
    match input with
    | none => emptyRawDoc
    | some r =>
      match r.groups with
      | none => emptyRawDoc
      | some gs => { r with groups := some (sortGroups gs) }
  ({ configuration := raw.configuration.getD ⟨none, none, none⟩,
     groups := raw.groups.getD [],
     items := raw.items.getD [],
     item_categories := raw.item_categories.getD [],
     markers := raw.markers.getD [],
     eras := raw.eras.getD (ErasVal.arr [] []) },
   1)

/-- `Json.save(path)` writes `JSON.stringify(this.data, null, 2)` and a
later `load` parses it back. Within this embedding's JSON-value world
(timestamps are numbers, see the header) stringify-then-parse is the
identity on objects, object entries and numeric array elements — with the
one exception the source hits: an Array serializes by numeric indices only,
so the string-keyed era entries that `addEra` stores on an array-shaped
`eras` (the shape `load`'s own backfill creates) do not survive, which
`stringifyEras` models. The saved record has all six fields present. -/
def Json.save (d : LoadedData) : RawDoc :=
  { configuration := some d.configuration,
    groups := some d.groups,
    items := some d.items,
    item_categories := some d.item_categories,
    eras := some (stringifyEras d.eras),
    markers := some d.markers }

/-- `Json.addEra` as it acts on the document `load` built, whatever shape
`eras` is in: the same `uuid in this.data.eras` guard and
`this.data.eras[uuid] = ...` assignment as `Json.addEra`, via the
shape-aware helpers; the method dispatches no event. -/
def Json.addEraOnLoaded (uuid text : String) (startDate endDate : Int)
    (color : String) (d : LoadedData) : Bool × LoadedData :=
  if ErasVal.hasKey d.eras uuid then
    (false, d)
  else
    (true,
     { d with eras :=
        ErasVal.setProp d.eras uuid ⟨text, startDate, endDate, color, true⟩ })

/-- Induction over a group forest: the step case provides induction
hypotheses for both the head's children and the remaining siblings, matching
the traversal of the recursive group operations. -/
theorem forestInduction {motive : List Group → Prop}
    (hnil : motive [])
    (hcons : ∀ (i n c : String) (p : Int) (v : Bool) (childs gs : List Group),
      motive childs → motive gs → motive (Group.mk i n c p v childs :: gs)) :
    ∀ gs, motive gs
  | [] => hnil
  | Group.mk i n c p v childs :: gs =>
    hcons i n c p v childs gs
      (forestInduction hnil hcons childs) (forestInduction hnil hcons gs)

theorem Smap.get_eq_none_of_has_false {α : Type} {m : Smap α} {k : String}
    (h : Smap.has m k = false) : Smap.get m k = none := by
  induction m with
  | nil => rfl
  | cons kv m ih =>
    simp only [Smap.has, List.any_cons, Bool.or_eq_false_iff] at h
    have hk : (k == kv.1) = false := by
      have h1 := h.1
      simp only [beq_eq_false_iff_ne, ne_eq] at h1 ⊢
      exact fun hkk => h1 hkk.symm
    simp only [Smap.get, List.lookup, hk]
    exact ih h.2

theorem Smap.get_append_self {α : Type} {m : Smap α} {k : String} {v : α}
    (h : Smap.has m k = false) : Smap.get (m ++ [(k, v)]) k = some v := by
  induction m with
  | nil => simp [Smap.get, List.lookup]
  | cons kv m ih =>
    simp only [Smap.has, List.any_cons, Bool.or_eq_false_iff] at h
    have hk : (k == kv.1) = false := by
      have h1 := h.1
      simp only [beq_eq_false_iff_ne, ne_eq] at h1 ⊢
      exact fun hkk => h1 hkk.symm
    simp only [Smap.get, List.cons_append, List.lookup, hk]
    exact ih h.2

theorem Smap.has_append_self {α : Type} (m : Smap α) (k : String) (v : α) :
    Smap.has (m ++ [(k, v)]) k = true := by
  simp [Smap.has, List.any_append]

/-- `sortGroupNode` does not change the node's `position`. -/
theorem position_sortGroupNode (g : Group) :
    (sortGroupNode g).position = g.position := by
  cases g with
  | mk i n c p v childs => simp [sortGroupNode, Group.position]

/-- `sortChilds` is `sortGroupNode` mapped over the list. -/
theorem sortChilds_eq_map (gs : List Group) :
    sortChilds gs = gs.map sortGroupNode := by
  induction gs with
  | nil => rfl
  | cons g gs ih => simp [sortChilds, ih]

theorem insertByPosition_map {f : Group → Group}
    (hf : ∀ g, (f g).position = g.position) (g : Group) (l : List Group) :
    insertByPosition (f g) (l.map f) = (insertByPosition g l).map f := by
  induction l with
  | nil => rfl
  | cons h t ih =>
    simp only [List.map_cons, insertByPosition, hf]
    by_cases hlt : h.position < g.position
    · rw [if_pos hlt, if_pos hlt, ih, List.map_cons]
    · rw [if_neg hlt, if_neg hlt, List.map_cons, List.map_cons]

theorem sortSiblings_map {f : Group → Group}
    (hf : ∀ g, (f g).position = g.position) (l : List Group) :
    sortSiblings (l.map f) = (sortSiblings l).map f := by
  induction l with
  | nil => rfl
  | cons g t ih => simp only [List.map_cons, sortSiblings, ih,
      insertByPosition_map hf]

/-- Faithfulness of `sortGroups` to the source's order of operations: the
source first stable-sorts the sibling list and then recursively sorts each
element's `childs`; this equals the embedding's children-first definition,
because the comparator reads only `position`, which `sortGroupNode`
preserves. -/
theorem sortGroups_eq_source (gs : List Group) :
    sortGroups gs = (sortSiblings gs).map sortGroupNode := by
  rw [sortGroups, sortChilds_eq_map, sortSiblings_map position_sortGroupNode]

mutual

/-- A node all of whose descendant sibling lists are sorted by `position`. -/
def nodeSorted : Group → Bool
  | Group.mk _ _ _ _ _ childs => siblingsSorted childs

/-- A sibling list with nondecreasing `position` values whose nodes are all
recursively sorted. -/
def siblingsSorted : List Group → Bool
  | [] => true
  | [g] => nodeSorted g
  | g :: g2 :: rest =>
    decide (g.position ≤ g2.position) && nodeSorted g &&
      siblingsSorted (g2 :: rest)

end

theorem insertByPosition_of_le {g g2 : Group} {rest : List Group}
    (h : g.position ≤ g2.position) :
    insertByPosition g (g2 :: rest) = g :: g2 :: rest := by
  simp only [insertByPosition, if_neg (not_lt.mpr h)]

mutual

theorem sortGroupNode_of_sorted :
    ∀ g : Group, nodeSorted g = true → sortGroupNode g = g
  | Group.mk i n c p v childs, h => by
    simp only [nodeSorted] at h
    simp only [sortGroupNode]
    rw [show sortSiblings (sortChilds childs) = childs from
      sortGroups_of_sorted childs h]

theorem sortGroups_of_sorted :
    ∀ l : List Group, siblingsSorted l = true →
      sortSiblings (sortChilds l) = l
  | [], _ => rfl
  | [g], h => by
    simp only [siblingsSorted] at h
    simp only [sortChilds, sortGroupNode_of_sorted g h, sortSiblings,
      insertByPosition]
  | g :: g2 :: rest, h => by
    simp only [siblingsSorted, Bool.and_eq_true, decide_eq_true_eq] at h
    obtain ⟨⟨hle, hg⟩, hrest⟩ := h
    have ih := sortGroups_of_sorted (g2 :: rest) hrest
    calc sortSiblings (sortChilds (g :: g2 :: rest))
        = insertByPosition (sortGroupNode g)
            (sortSiblings (sortChilds (g2 :: rest))) := by
          simp only [sortChilds, sortSiblings]
      _ = insertByPosition g (g2 :: rest) := by
          rw [sortGroupNode_of_sorted g hg, ih]
      _ = g :: g2 :: rest := insertByPosition_of_le hle

end

/-- C3 (amended): within the JSON-value world (timestamps as numbers),
`save` followed by `load` from the same destination reproduces
`configuration`, `groups` (up to the recursive re-sorting by `position`),
`items`, `item_categories` and `markers`; the `eras` collection is
reproduced exactly when it is object-shaped (a string-keyed map), but when
it is the array shape `load`'s backfill creates, `JSON.stringify` keeps only
the numeric elements and every string-keyed era entry stored on it is lost.
On a document with object-shaped eras and an already-sorted forest, the
round trip reproduces the document exactly. -/
theorem save_load_roundtrip (d : LoadedData) :
    (Json.load (some (Json.save d))).1 =
      { d with groups := sortGroups d.groups,
               eras := stringifyEras d.eras } ∧
    (∀ m : Smap Era, d.eras = ErasVal.map m →
      (Json.load (some (Json.save d))).1 =
        { d with groups := sortGroups d.groups }) ∧
    (siblingsSorted d.groups = true → ∀ m : Smap Era,
      d.eras = ErasVal.map m →
      (Json.load (some (Json.save d))).1 = d) := by
  refine ⟨?_, ?_, ?_⟩
  · cases d
    simp [Json.load, Json.save]
  · intro m hm
    cases d
    subst hm
    simp [Json.load, Json.save, stringifyEras]
  · intro hs m hm
    cases d
    subst hm
    simp only [siblingsSorted] at hs
    simp [Json.load, Json.save, stringifyEras, sortGroups,
      sortGroups_of_sorted _ hs]

/-- The store-reachable document of the C3 counterexample: `load` of a file
with no `eras` field backfills `eras` as an empty Array, and a following
successful `addEra` stores era "e1" as a string-keyed property on that
Array. All six collections are present (an Array is truthy), so `isValid()`
holds. -/
def c3TraceDoc : LoadedData :=
  (Json.addEraOnLoaded "e1" "Epoch" 0 10 "red" (Json.load none).1).2

/-- C3 counterexample: on the valid, store-reachable document `c3TraceDoc`,
save followed by load does NOT reproduce the six collections modulo group
re-sorting — `JSON.stringify` serializes the array-shaped `eras` by numeric
indices only, so the era stored under "e1" is silently dropped and the
reloaded document differs from the saved one in its `eras` collection
(groups are empty, hence already sorted). -/
theorem save_load_drops_array_eras :
    (Json.addEraOnLoaded "e1" "Epoch" 0 10 "red" (Json.load none).1).1 =
      true ∧
    c3TraceDoc.eras =
      ErasVal.arr [] [("e1", ⟨"Epoch", 0, 10, "red", true⟩)] ∧
    (Json.load (some (Json.save c3TraceDoc))).1.eras =
      ErasVal.arr [] [] ∧
    (Json.load (some (Json.save c3TraceDoc))).1 ≠ c3TraceDoc := by
  have h2 : c3TraceDoc.eras =
      ErasVal.arr [] [("e1", ⟨"Epoch", 0, 10, "red", true⟩)] := rfl
  have h3 : (Json.load (some (Json.save c3TraceDoc))).1.eras =
      ErasVal.arr [] [] := rfl
  refine ⟨rfl, h2, h3, fun h => ?_⟩
  have h4 := congrArg LoadedData.eras h
  rw [h3, h2] at h4
  exact absurd h4 (by simp)

/-- A small already-sorted document with object-shaped eras used to
instantiate `save_load_roundtrip`: two root groups with positions 1 and 2,
the first with a sorted child list. -/
def loadedEx : LoadedData :=
  { configuration := ⟨some "en_US", none, none⟩,
    groups :=
      [Group.mk "a" "A" "" 1 true [Group.mk "c" "C" "" 1 true []],
       Group.mk "b" "B" "" 2 true []],
    items := [],
    item_categories := [("x", VIS.ITEM.DEFAULT_STYLE)],
    eras := ErasVal.map [],
    markers := [] }

/-- Witness for C3 (amended) at a concrete sorted document with
object-shaped eras. -/
theorem save_load_roundtrip_witness :
    (Json.load (some (Json.save loadedEx))).1 = loadedEx :=
  (save_load_roundtrip loadedEx).2.2 (by rfl) [] rfl

/-- The events dispatched by a successful `removeGroup` search equal the
depth of the first match plus one: one dispatch in the frame that splices,
plus one per ancestor frame whose recursive call succeeded. -/
theorem removeGroupGo_events (id : String) :
    ∀ gs : List Group,
      (removeGroupGo id gs).map (fun r => r.2) =
        (findDepthGo id gs).map (fun dpt => dpt + 1) := by
  refine forestInduction ?_ ?_
  · simp [removeGroupGo, findDepthGo]
  · intro i n c p v childs gs ihc ihs
    simp only [removeGroupGo, findDepthGo]
    by_cases hid : i = id
    · have h1 : (i == id) = true := by simp [hid]
      rw [if_pos h1, if_pos h1]
      simp
    · have h1 : ¬((i == id) = true) := by simp [hid]
      rw [if_neg h1, if_neg h1]
      cases hrc : removeGroupGo id childs with
      | some r =>
        obtain ⟨gs2, k⟩ := r
        rw [hrc] at ihc
        cases hfc : findDepthGo id childs with
        | some dpt =>
          rw [hfc] at ihc
          simp at ihc
          simp [ihc]
        | none => rw [hfc] at ihc; simp at ihc
      | none =>
        rw [hrc] at ihc
        cases hfc : findDepthGo id childs with
        | some dpt => rw [hfc] at ihc; simp at ihc
        | none =>
          cases hrs : removeGroupGo id gs with
          | some r2 =>
            obtain ⟨gs3, k⟩ := r2
            rw [hrs] at ihs
            cases hfs : findDepthGo id gs with
            | some dpt => rw [hfs] at ihs; simp at ihs; simp [ihs]
            | none => rw [hfs] at ihs; simp at ihs
          | none =>
            rw [hrs] at ihs
            cases hfs : findDepthGo id gs with
            | some dpt => rw [hfs] at ihs; simp at ihs
            | none => simp

/-- Companion of `removeGroupGo_events` for `renameGroup`. -/
theorem renameGroupGo_events (id name : String) :
    ∀ gs : List Group,
      (renameGroupGo id name gs).map (fun r => r.2) =
        (findDepthGo id gs).map (fun dpt => dpt + 1) := by
  refine forestInduction ?_ ?_
  · simp [renameGroupGo, findDepthGo]
  · intro i n c p v childs gs ihc ihs
    simp only [renameGroupGo, findDepthGo]
    by_cases hid : i = id
    · have h1 : (i == id) = true := by simp [hid]
      rw [if_pos h1, if_pos h1]
      simp
    · have h1 : ¬((i == id) = true) := by simp [hid]
      rw [if_neg h1, if_neg h1]
      cases hrc : renameGroupGo id name childs with
      | some r =>
        obtain ⟨gs2, k⟩ := r
        rw [hrc] at ihc
        cases hfc : findDepthGo id childs with
        | some dpt =>
          rw [hfc] at ihc
          simp at ihc
          simp [ihc]
        | none => rw [hfc] at ihc; simp at ihc
      | none =>
        rw [hrc] at ihc
        cases hfc : findDepthGo id childs with
        | some dpt => rw [hfc] at ihc; simp at ihc
        | none =>
          cases hrs : renameGroupGo id name gs with
          | some r2 =>
            obtain ⟨gs3, k⟩ := r2
            rw [hrs] at ihs
            cases hfs : findDepthGo id gs with
            | some dpt => rw [hfs] at ihs; simp at ihs; simp [ihs]
            | none => rw [hfs] at ihs; simp at ihs
          | none =>
            rw [hrs] at ihs
            cases hfs : findDepthGo id gs with
            | some dpt => rw [hfs] at ihs; simp at ihs
            | none => simp

/-- Companion of `removeGroupGo_events` for `toggleGroupVisibility`. -/
theorem toggleGroupGo_events (id : String) :
    ∀ gs : List Group,
      (toggleGroupGo id gs).map (fun r => r.2) =
        (findDepthGo id gs).map (fun dpt => dpt + 1) := by
  refine forestInduction ?_ ?_
  · simp [toggleGroupGo, findDepthGo]
  · intro i n c p v childs gs ihc ihs
    simp only [toggleGroupGo, findDepthGo]
    by_cases hid : i = id
    · have h1 : (i == id) = true := by simp [hid]
      rw [if_pos h1, if_pos h1]
      simp
    · have h1 : ¬((i == id) = true) := by simp [hid]
      rw [if_neg h1, if_neg h1]
      cases hrc : toggleGroupGo id childs with
      | some r =>
        obtain ⟨gs2, k⟩ := r
        rw [hrc] at ihc
        cases hfc : findDepthGo id childs with
        | some dpt =>
          rw [hfc] at ihc
          simp at ihc
          simp [ihc]
        | none => rw [hfc] at ihc; simp at ihc
      | none =>
        rw [hrc] at ihc
        cases hfc : findDepthGo id childs with
        | some dpt => rw [hfc] at ihc; simp at ihc
        | none =>
          cases hrs : toggleGroupGo id gs with
          | some r2 =>
            obtain ⟨gs3, k⟩ := r2
            rw [hrs] at ihs
            cases hfs : findDepthGo id gs with
            | some dpt => rw [hfs] at ihs; simp at ihs; simp [ihs]
            | none => rw [hfs] at ihs; simp at ihs
          | none =>
            rw [hrs] at ihs
            cases hfs : findDepthGo id gs with
            | some dpt => rw [hfs] at ihs; simp at ihs
            | none => simp

theorem removeGroupGo_none_iff (id : String) (gs : List Group) :
    removeGroupGo id gs = none ↔ findDepthGo id gs = none := by
  have h := removeGroupGo_events id gs
  cases hr : removeGroupGo id gs with
  | none =>
    cases hf : findDepthGo id gs with
    | none => simp
    | some dpt => rw [hr, hf] at h; simp at h
  | some r =>
    cases hf : findDepthGo id gs with
    | none => rw [hr, hf] at h; simp at h
    | some dpt => simp

theorem renameGroupGo_none_iff (id name : String) (gs : List Group) :
    renameGroupGo id name gs = none ↔ findDepthGo id gs = none := by
  have h := renameGroupGo_events id name gs
  cases hr : renameGroupGo id name gs with
  | none =>
    cases hf : findDepthGo id gs with
    | none => simp
    | some dpt => rw [hr, hf] at h; simp at h
  | some r =>
    cases hf : findDepthGo id gs with
    | none => rw [hr, hf] at h; simp at h
    | some dpt => simp

theorem toggleGroupGo_none_iff (id : String) (gs : List Group) :
    toggleGroupGo id gs = none ↔ findDepthGo id gs = none := by
  have h := toggleGroupGo_events id gs
  cases hr : toggleGroupGo id gs with
  | none =>
    cases hf : findDepthGo id gs with
    | none => simp
    | some dpt => rw [hr, hf] at h; simp at h
  | some r =>
    cases hf : findDepthGo id gs with
    | none => rw [hr, hf] at h; simp at h
    | some dpt => simp

/-- C1 (amended): `addGroup`, `addItem`, `updateItem` and `removeItem` emit
exactly one change notification on success, and the batched `load` emits
exactly one notification unconditionally; `removeGroup`, `renameGroup` and
`toggleGroupVisibility`, however, emit one notification per recursion level
on the path to the matched group — a success whose match sits at nesting
depth `dpt` (0 = the root list) emits `dpt + 1` notifications, so only
top-level matches emit exactly one. -/
theorem mutation_notification_counts :
    (∀ name newId d, (Json.addGroup name newId d).ret = true →
      (Json.addGroup name newId d).events = 1) ∧
    (∀ data d, (Json.addItem data d).ret = true →
      (Json.addItem data d).events = 1) ∧
    (∀ data d, (Json.updateItem data d).ret = true →
      (Json.updateItem data d).events = 1) ∧
    (∀ data d, (Json.removeItem data d).ret = true →
      (Json.removeItem data d).events = 1) ∧
    (∀ input, (Json.load input).2 = 1) ∧
    (∀ id d, (Json.removeGroup id d).ret = true →
      ∃ dpt, findDepthGo id d.groups = some dpt ∧
        (Json.removeGroup id d).events = dpt + 1) ∧
    (∀ id name d, (Json.renameGroup id name d).ret = true →
      ∃ dpt, findDepthGo id d.groups = some dpt ∧
        (Json.renameGroup id name d).events = dpt + 1) ∧
    (∀ id d, (Json.toggleGroupVisibility id d).ret = true →
      ∃ dpt, findDepthGo id d.groups = some dpt ∧
        (Json.toggleGroupVisibility id d).events = dpt + 1) := by
  refine ⟨?_, ?_, ?_, ?_, ?_, ?_, ?_, ?_⟩
  · intro name newId d h
    unfold Json.addGroup at h ⊢
    by_cases hn : (name == "") = true
    · rw [if_pos hn] at h; simp at h
    · rw [if_neg hn]
  · intro data d h
    cases data with
    | none => simp [Json.addItem] at h
    | some it =>
      simp only [Json.addItem] at h ⊢
      cases hid : it.id with
      | none => simp only [hid] at h; simp at h
      | some s =>
        simp only [hid] at h ⊢
        by_cases hdup : (d.items.any fun x => x.id == some s) = true
        · rw [if_pos hdup] at h; simp at h
        · rw [if_neg hdup]
  · intro data d h
    cases data with
    | none => simp [Json.updateItem] at h
    | some it =>
      simp only [Json.updateItem] at h ⊢
      cases hid : it.id with
      | none => simp only [hid] at h; simp at h
      | some s =>
        simp only [hid] at h ⊢
        cases hgo : updateItemGo it d.item_categories d.items with
        | none => rw [hgo] at h; simp at h
        | some r => obtain ⟨a, b⟩ := r; rfl
  · intro data d h
    cases data with
    | none => simp [Json.removeItem] at h
    | some it =>
      simp only [Json.removeItem] at h ⊢
      cases hid : it.id with
      | none => simp only [hid] at h; simp at h
      | some s =>
        simp only [hid] at h ⊢
        cases hgo : removeItemGo (some s) d.items with
        | none => rw [hgo] at h; simp at h
        | some items2 => rfl
  · intro input; rfl
  · intro id d h
    simp only [Json.removeGroup] at h ⊢
    cases hgo : removeGroupGo id d.groups with
    | none => rw [hgo] at h; simp at h
    | some r =>
      obtain ⟨gs2, k⟩ := r
      have he := removeGroupGo_events id d.groups
      rw [hgo] at he
      cases hf : findDepthGo id d.groups with
      | none => rw [hf] at he; simp at he
      | some dpt =>
        rw [hf] at he
        simp at he
        exact ⟨dpt, rfl, by simp [he]⟩
  · intro id name d h
    simp only [Json.renameGroup] at h ⊢
    by_cases hn : (name == "") = true
    · rw [if_pos hn] at h; simp at h
    · rw [if_neg hn] at h ⊢
      cases hgo : renameGroupGo id name d.groups with
      | none => rw [hgo] at h; simp at h
      | some r =>
        obtain ⟨gs2, k⟩ := r
        have he := renameGroupGo_events id name d.groups
        rw [hgo] at he
        cases hf : findDepthGo id d.groups with
        | none => rw [hf] at he; simp at he
        | some dpt =>
          rw [hf] at he
          simp at he
          exact ⟨dpt, rfl, by simp [he]⟩
  · intro id d h
    simp only [Json.toggleGroupVisibility] at h ⊢
    cases hgo : toggleGroupGo id d.groups with
    | none => rw [hgo] at h; simp at h
    | some r =>
      obtain ⟨gs2, k⟩ := r
      have he := toggleGroupGo_events id d.groups
      rw [hgo] at he
      cases hf : findDepthGo id d.groups with
      | none => rw [hf] at he; simp at he
      | some dpt =>
        rw [hf] at he
        simp at he
        exact ⟨dpt, rfl, by simp [he]⟩

/-- Document whose forest holds group `b` nested one level below root group
`a`. -/
def nestedDataEx : Data :=
  { configuration := ⟨none, none, none⟩,
    groups := [Group.mk "a" "A" "" 1 true [Group.mk "b" "B" "" 1 true []]],
    items := [], item_categories := [], eras := [], markers := [] }

/-- C1 counterexample: a single successful `removeGroup` of the depth-1
group `b` dispatches two change notifications — one from the recursive call
that spliced `b` out of `a.childs` and a second from the outer call — not
exactly one. -/
theorem removeGroup_nested_not_one_event :
    (Json.removeGroup "b" nestedDataEx).ret = true ∧
    ¬((Json.removeGroup "b" nestedDataEx).events = 1) := by
  constructor <;> simp [Json.removeGroup, nestedDataEx, removeGroupGo]

/-- Witness for C1 (amended) at concrete inputs: a successful `addGroup`
emits one notification, and the successful nested `removeGroup` of
`nestedDataEx` emits depth + 1 = 2. -/
theorem mutation_notification_counts_witness :
    (Json.addGroup "G" "id1"
      (⟨⟨none, none, none⟩, [], [], [], [], []⟩ : Data)).events = 1 ∧
    ∃ dpt, findDepthGo "b" nestedDataEx.groups = some dpt ∧
      (Json.removeGroup "b" nestedDataEx).events = dpt + 1 := by
  constructor
  · exact mutation_notification_counts.1 "G" "id1" _ (by simp [Json.addGroup])
  · exact mutation_notification_counts.2.2.2.2.2.1 "b" nestedDataEx
      (by simp [Json.removeGroup, nestedDataEx, removeGroupGo])

theorem updateItemGo_none_of_no_match {p : Item} {cats : Smap Category}
    {items : List Item} (h : ∀ x ∈ items, (x.id == p.id) = false) :
    updateItemGo p cats items = none := by
  induction items with
  | nil => rfl
  | cons item rest ih =>
    have h1 := h item (by simp)
    simp only [updateItemGo, h1, Bool.false_eq_true, if_false]
    rw [ih (fun x hx => h x (by simp [hx]))]

theorem removeItemGo_none_of_no_match {pid : Option String}
    {items : List Item} (h : ∀ x ∈ items, (x.id == pid) = false) :
    removeItemGo pid items = none := by
  induction items with
  | nil => rfl
  | cons item rest ih =>
    have h1 := h item (by simp)
    simp only [removeItemGo, h1, Bool.false_eq_true, if_false]
    rw [ih (fun x hx => h x (by simp [hx]))]

/-- C2: whenever any of the fourteen mutation operations returns false, the
document it returns is the one it was given — every failure is "false, no
state change", and the operations are total Lean functions, so no failure can
surface as an exception; moreover each listed failure trigger — target id
absent from the forest/list/map, required name or id empty or missing, or a
duplicate id on add — does return false. -/
theorem failed_mutations_preserve_document :
    (∀ name newId d, (Json.addGroup name newId d).ret = false →
      (Json.addGroup name newId d).doc = d) ∧
    (∀ id d, (Json.removeGroup id d).ret = false →
      (Json.removeGroup id d).doc = d) ∧
    (∀ id name d, (Json.renameGroup id name d).ret = false →
      (Json.renameGroup id name d).doc = d) ∧
    (∀ id d, (Json.toggleGroupVisibility id d).ret = false →
      (Json.toggleGroupVisibility id d).doc = d) ∧
    (∀ data d, (Json.addItem data d).ret = false →
      (Json.addItem data d).doc = d) ∧
    (∀ data d, (Json.updateItem data d).ret = false →
      (Json.updateItem data d).doc = d) ∧
    (∀ data d, (Json.removeItem data d).ret = false →
      (Json.removeItem data d).doc = d) ∧
    (∀ uuid name date d, (Json.addMarker uuid name date d).ret = false →
      (Json.addMarker uuid name date d).doc = d) ∧
    (∀ uuid d, (Json.removeMarker uuid d).ret = false →
      (Json.removeMarker uuid d).doc = d) ∧
    (∀ uuid name date d, (Json.updateMarker uuid name date d).ret = false →
      (Json.updateMarker uuid name date d).doc = d) ∧
    (∀ uuid text s e color d, (Json.addEra uuid text s e color d).ret = false →
      (Json.addEra uuid text s e color d).doc = d) ∧
    (∀ uuid d, (Json.removeEra uuid d).ret = false →
      (Json.removeEra uuid d).doc = d) ∧
    (∀ uuid text s e color d,
      (Json.updateEra uuid text s e color d).ret = false →
      (Json.updateEra uuid text s e color d).doc = d) ∧
    (∀ uuid d, (Json.toggleEraVisibility uuid d).ret = false →
      (Json.toggleEraVisibility uuid d).doc = d) ∧
    (∀ id d, findDepthGo id d.groups = none →
      (Json.removeGroup id d).ret = false) ∧
    (∀ id name d, findDepthGo id d.groups = none →
      (Json.renameGroup id name d).ret = false) ∧
    (∀ id d, findDepthGo id d.groups = none →
      (Json.toggleGroupVisibility id d).ret = false) ∧
    (∀ newId d, (Json.addGroup "" newId d).ret = false) ∧
    (∀ id d, (Json.renameGroup id "" d).ret = false) ∧
    (∀ d, (Json.addItem none d).ret = false ∧
      (Json.updateItem none d).ret = false ∧
      (Json.removeItem none d).ret = false) ∧
    (∀ it d, it.id = none → (Json.addItem (some it) d).ret = false ∧
      (Json.updateItem (some it) d).ret = false ∧
      (Json.removeItem (some it) d).ret = false) ∧
    (∀ it d, (d.items.any fun x => x.id == it.id) = true →
      (Json.addItem (some it) d).ret = false) ∧
    (∀ it d, (∀ x ∈ d.items, (x.id == it.id) = false) →
      (Json.updateItem (some it) d).ret = false ∧
      (Json.removeItem (some it) d).ret = false) ∧
    (∀ uuid name date d, Smap.has d.markers uuid = true →
      (Json.addMarker uuid name date d).ret = false) ∧
    (∀ uuid d, Smap.has d.markers uuid = false →
      (Json.removeMarker uuid d).ret = false ∧
      ∀ name date, (Json.updateMarker uuid name date d).ret = false) ∧
    (∀ uuid text s e color d, Smap.has d.eras uuid = true →
      (Json.addEra uuid text s e color d).ret = false) ∧
    (∀ uuid d, Smap.has d.eras uuid = false →
      (Json.removeEra uuid d).ret = false ∧
      (∀ text s e color, (Json.updateEra uuid text s e color d).ret = false) ∧
      (Json.toggleEraVisibility uuid d).ret = false) := by
  refine ⟨?_, ?_, ?_, ?_, ?_, ?_, ?_, ?_, ?_, ?_, ?_, ?_, ?_, ?_,
    ?_, ?_, ?_, ?_, ?_, ?_, ?_, ?_, ?_, ?_, ?_, ?_, ?_⟩
  · intro name newId d h
    simp only [Json.addGroup] at h ⊢
    by_cases hn : (name == "") = true
    · rw [if_pos hn]
    · rw [if_neg hn] at h; simp at h
  · intro id d h
    simp only [Json.removeGroup] at h ⊢
    cases hgo : removeGroupGo id d.groups with
    | none => rfl
    | some r => obtain ⟨gs2, k⟩ := r; rw [hgo] at h; simp at h
  · intro id name d h
    simp only [Json.renameGroup] at h ⊢
    by_cases hn : (name == "") = true
    · rw [if_pos hn]
    · rw [if_neg hn] at h ⊢
      cases hgo : renameGroupGo id name d.groups with
      | none => rfl
      | some r => obtain ⟨gs2, k⟩ := r; rw [hgo] at h; simp at h
  · intro id d h
    simp only [Json.toggleGroupVisibility] at h ⊢
    cases hgo : toggleGroupGo id d.groups with
    | none => rfl
    | some r => obtain ⟨gs2, k⟩ := r; rw [hgo] at h; simp at h
  · intro data d h
    cases data with
    | none => rfl
    | some it =>
      simp only [Json.addItem] at h ⊢
      cases hid : it.id with
      | none => simp [hid]
      | some s =>
        simp only [hid] at h ⊢
        by_cases hdup : (d.items.any fun x => x.id == some s) = true
        · rw [if_pos hdup]
        · rw [if_neg hdup] at h; simp at h
  · intro data d h
    cases data with
    | none => rfl
    | some it =>
      simp only [Json.updateItem] at h ⊢
      cases hid : it.id with
      | none => simp [hid]
      | some s =>
        simp only [hid] at h ⊢
        cases hgo : updateItemGo it d.item_categories d.items with
        | none => rfl
        | some r => obtain ⟨a, b⟩ := r; rw [hgo] at h; simp at h
  · intro data d h
    cases data with
    | none => rfl
    | some it =>
      simp only [Json.removeItem] at h ⊢
      cases hid : it.id with
      | none => simp [hid]
      | some s =>
        simp only [hid] at h ⊢
        cases hgo : removeItemGo (some s) d.items with
        | none => rfl
        | some items2 => rw [hgo] at h; simp at h
  · intro uuid name date d h
    simp only [Json.addMarker] at h ⊢
    by_cases hm : (Smap.has d.markers uuid) = true
    · rw [if_pos hm]
    · rw [if_neg hm] at h; simp at h
  · intro uuid d h
    simp only [Json.removeMarker] at h ⊢
    by_cases hm : (!(Smap.has d.markers uuid)) = true
    · rw [if_pos hm]
    · rw [if_neg hm] at h; simp at h
  · intro uuid name date d h
    simp only [Json.updateMarker] at h ⊢
    by_cases hm : (!(Smap.has d.markers uuid)) = true
    · rw [if_pos hm]
    · rw [if_neg hm] at h; simp at h
  · intro uuid text s e color d h
    simp only [Json.addEra] at h ⊢
    by_cases hm : (Smap.has d.eras uuid) = true
    · rw [if_pos hm]
    · rw [if_neg hm] at h; simp at h
  · intro uuid d h
    simp only [Json.removeEra] at h ⊢
    by_cases hm : (!(Smap.has d.eras uuid)) = true
    · rw [if_pos hm]
    · rw [if_neg hm] at h; simp at h
  · intro uuid text s e color d h
    simp only [Json.updateEra] at h ⊢
    by_cases hm : (!(Smap.has d.eras uuid)) = true
    · rw [if_pos hm]
    · rw [if_neg hm] at h; simp at h
  · intro uuid d h
    simp only [Json.toggleEraVisibility] at h ⊢
    by_cases hm : (!(Smap.has d.eras uuid)) = true
    · rw [if_pos hm]
    · rw [if_neg hm] at h; simp at h
  · intro id d hf
    simp only [Json.removeGroup]
    rw [(removeGroupGo_none_iff id d.groups).mpr hf]
  · intro id name d hf
    simp only [Json.renameGroup]
    by_cases hn : (name == "") = true
    · rw [if_pos hn]
    · rw [if_neg hn, (renameGroupGo_none_iff id name d.groups).mpr hf]
  · intro id d hf
    simp only [Json.toggleGroupVisibility]
    rw [(toggleGroupGo_none_iff id d.groups).mpr hf]
  · intro newId d; simp [Json.addGroup]
  · intro id d; simp [Json.renameGroup]
  · intro d; exact ⟨rfl, rfl, rfl⟩
  · intro it d hid
    refine ⟨?_, ?_, ?_⟩ <;>
      simp [Json.addItem, Json.updateItem, Json.removeItem, hid]
  · intro it d hdup
    simp only [Json.addItem]
    cases hid : it.id with
    | none => rfl
    | some s =>
      rw [hid] at hdup
      rw [if_pos hdup]
  · intro it d hno
    constructor
    · simp only [Json.updateItem]
      cases hid : it.id with
      | none => rfl
      | some s => rw [updateItemGo_none_of_no_match hno]
    · simp only [Json.removeItem]
      cases hid : it.id with
      | none => rfl
      | some s =>
        rw [hid] at hno
        rw [removeItemGo_none_of_no_match hno]
  · intro uuid name date d hm
    simp only [Json.addMarker]
    rw [if_pos hm]
  · intro uuid d hm
    have hm2 : (!(Smap.has d.markers uuid)) = true := by simp [hm]
    constructor
    · simp only [Json.removeMarker]; rw [if_pos hm2]
    · intro name date
      simp only [Json.updateMarker]; rw [if_pos hm2]
  · intro uuid text s e color d hm
    simp only [Json.addEra]
    rw [if_pos hm]
  · intro uuid d hm
    have hm2 : (!(Smap.has d.eras uuid)) = true := by simp [hm]
    refine ⟨?_, ?_, ?_⟩
    · simp only [Json.removeEra]; rw [if_pos hm2]
    · intro text s e color
      simp only [Json.updateEra]; rw [if_pos hm2]
    · simp only [Json.toggleEraVisibility]; rw [if_pos hm2]

/-- Concrete document holding one marker, used by the C2 witness. -/
def markerDataEx : Data :=
  { configuration := ⟨none, none, none⟩, groups := [], items := [],
    item_categories := [], eras := [], markers := [("m", ⟨"M", 0⟩)] }

/-- Witness for C2 at concrete documents: removing the absent group id "zz"
from `nestedDataEx` fails and leaves the document unchanged, and an
`addMarker` on an already-present uuid fails and changes nothing. -/
theorem failed_mutations_preserve_document_witness :
    ((Json.removeGroup "zz" nestedDataEx).ret = false ∧
      (Json.removeGroup "zz" nestedDataEx).doc = nestedDataEx) ∧
    ((Json.addMarker "m" "N" 5 markerDataEx).ret = false ∧
      (Json.addMarker "m" "N" 5 markerDataEx).doc = markerDataEx) := by
  obtain ⟨f1, f2, f3, f4, f5, f6, f7, f8, f9, f10, f11, f12, f13, f14,
    t1, t2, t3, t4, t5, t6, t7, t8, t9, t10, t11, t12, t13⟩ :=
    failed_mutations_preserve_document
  have hf : findDepthGo "zz" nestedDataEx.groups = none := by
    simp [findDepthGo, nestedDataEx]
  have hret := t1 "zz" nestedDataEx hf
  have hm : Smap.has markerDataEx.markers "m" = true := by
    simp [Smap.has, markerDataEx]
  have hmret := t10 "m" "N" 5 markerDataEx hm
  exact ⟨⟨hret, f2 "zz" nestedDataEx hret⟩,
    ⟨hmret, f8 "m" "N" 5 markerDataEx hmret⟩⟩

/-- The document `Json.load` builds when every field must be backfilled:
empty object for `configuration`, `item_categories` and `markers`, empty
array for `groups`, `items` — and for `eras`, which the backfill also sets
to an empty array. -/
def emptyLoadedData : LoadedData :=
  { configuration := ⟨none, none, none⟩, groups := [], items := [],
    item_categories := [], eras := ErasVal.arr [] [], markers := [] }

/-- C4 (amended): if parsing fails the document becomes the empty object and
is backfilled; if parsing succeeds but the record has no `groups` field, the
recursive sort inside the same try-block throws and the parsed record is
discarded — the result is again the fully backfilled empty document; only
when `groups` is present is every present top-level field preserved, the
missing ones among `configuration`, `items`, `item_categories`, `markers`
backfilled with empty defaults of the correct shape, a missing `eras`
backfilled with an empty array (not a string-keyed map), and `groups` sorted
recursively by `position`. -/
theorem load_backfill_characterization :
    (Json.load none = (emptyLoadedData, 1)) ∧
    (∀ r : RawDoc, r.groups = none →
      Json.load (some r) = (emptyLoadedData, 1)) ∧
    (∀ (r : RawDoc) (gs : List Group), r.groups = some gs →
      Json.load (some r) =
        ({ configuration := r.configuration.getD ⟨none, none, none⟩,
           groups := sortGroups gs,
           items := r.items.getD [],
           item_categories := r.item_categories.getD [],
           eras := r.eras.getD (ErasVal.arr [] []),
           markers := r.markers.getD [] }, 1)) := by
  refine ⟨rfl, ?_, ?_⟩
  · intro r hg
    simp [Json.load, hg, emptyLoadedData, emptyRawDoc]
  · intro r gs hg
    simp [Json.load, hg]

/-- A parsed record with items present but no `groups` field. -/
def rawDocEx : RawDoc :=
  { configuration := none, groups := none,
    items := some [⟨some "i1", none, none, none, none, none, none, none⟩],
    item_categories := none, eras := none, markers := none }

/-- C4 counterexample: `rawDocEx` parses to a record whose `items` field is
present and non-empty, yet `load` returns a document with no items — a
present top-level field is not preserved (the missing `groups` field makes
`this.#sortGroups()` throw inside the `try` and the parsed record is
discarded); and the backfilled `eras` collection is an empty array, not an
empty string-keyed map. -/
theorem load_counterexample :
    rawDocEx.items =
      some [⟨some "i1", none, none, none, none, none, none, none⟩] ∧
    (Json.load (some rawDocEx)).1.items = [] ∧
    (Json.load (some rawDocEx)).1.eras = ErasVal.arr [] [] ∧
    ErasVal.arr [] [] ≠ ErasVal.map [] := by
  refine ⟨rfl, rfl, rfl, by simp⟩

/-- A parsed record carrying only an unsorted `groups` field. -/
def rawDocEx2 : RawDoc :=
  { configuration := none,
    groups := some [Group.mk "g2" "B" "" 2 true [], Group.mk "g1" "A" "" 1 true []],
    items := none, item_categories := none, eras := none, markers := none }

/-- Witness for C4 (amended) at concrete parsed records. -/
theorem load_backfill_characterization_witness :
    (Json.load (some rawDocEx) = (emptyLoadedData, 1)) ∧
    (Json.load (some rawDocEx2) =
      ({ configuration := ⟨none, none, none⟩,
         groups := sortGroups
           [Group.mk "g2" "B" "" 2 true [], Group.mk "g1" "A" "" 1 true []],
         items := [], item_categories := [], eras := ErasVal.arr [] [],
         markers := [] }, 1)) := by
  constructor
  · exact load_backfill_characterization.2.1 rawDocEx rfl
  · have h := load_backfill_characterization.2.2 rawDocEx2 _ rfl
    simpa [rawDocEx2] using h

/-- Scanning a list that splits as `pre ++ item :: post`, where `pre` has no
id match and `item` matches, updates exactly `item` and leaves `pre` and
`post` untouched. -/
theorem updateItemGo_found {p : Item} {cats : Smap Category}
    {pre post : List Item} {item : Item}
    (hpre : ∀ x ∈ pre, (x.id == p.id) = false)
    (hit : (item.id == p.id) = true) :
    updateItemGo p cats (pre ++ item :: post) =
      some (pre ++ (applyItemUpdate p item cats).1 :: post,
        (applyItemUpdate p item cats).2) := by
  induction pre with
  | nil => simp [updateItemGo, hit]
  | cons x pre ih =>
    have h1 := hpre x (by simp)
    simp only [List.cons_append, updateItemGo, h1, Bool.false_eq_true,
      if_false, List.append_eq]
    rw [ih (fun y hy => hpre y (by simp [hy]))]

/-- The payload `{id, start}` of the C5 scenario: only `id` and `start`
present. -/
def startOnlyPayload (i1 : String) (t2 : Int) : Item :=
  ⟨some i1, none, none, none, some t2, none, none, none⟩

/-- C5: on a document whose items list contains an item with id `i1` (first
match after a prefix without that id), `updateItem` with a payload holding
only `id` and `start` returns true, replaces exactly that item's `start` and
leaves every other field of the item, all other items, and all other
collections unchanged; and on a payload whose id matches no item it returns
false and changes nothing. -/
theorem updateItem_start_only (d : Data) (i1 : String) (t2 : Int)
    (pre post : List Item) (item : Item)
    (hsplit : d.items = pre ++ item :: post)
    (hpre : ∀ x ∈ pre, (x.id == some i1) = false)
    (hit : item.id = some i1) :
    (Json.updateItem (some (startOnlyPayload i1 t2)) d).ret = true ∧
    (Json.updateItem (some (startOnlyPayload i1 t2)) d).doc =
      { d with items := pre ++ { item with start := some t2 } :: post } ∧
    (Json.updateItem (some (startOnlyPayload i1 t2)) d).events = 1 ∧
    (∀ q : Item, (∀ x ∈ d.items, (x.id == q.id) = false) →
      (Json.updateItem (some q) d).ret = false ∧
      (Json.updateItem (some q) d).doc = d) := by
  have hpid : (startOnlyPayload i1 t2).id = some i1 := rfl
  have hbit : (item.id == (startOnlyPayload i1 t2).id) = true := by
    rw [hpid, hit]; simp
  have hpre2 : ∀ x ∈ pre, (x.id == (startOnlyPayload i1 t2).id) = false := by
    intro x hx; rw [hpid]; exact hpre x hx
  have hgo := @updateItemGo_found (startOnlyPayload i1 t2) d.item_categories
    pre post item hpre2 hbit
  refine ⟨?_, ?_, ?_, ?_⟩
  · simp only [Json.updateItem, hpid]
    rw [hsplit, hgo]
  · simp only [Json.updateItem, hpid]
    rw [hsplit, hgo]
    rfl
  · simp only [Json.updateItem, hpid]
    rw [hsplit, hgo]
  · intro q hq
    constructor
    · simp only [Json.updateItem]
      cases hqid : q.id with
      | none => rfl
      | some s => rw [updateItemGo_none_of_no_match hq]
    · simp only [Json.updateItem]
      cases hqid : q.id with
      | none => rfl
      | some s => rw [updateItemGo_none_of_no_match hq]

/-- A Point item with id "i1" and some content, for the C5 witness. -/
def c5ItemA : Item :=
  ⟨some "i1", none, some "hello", none, some 0, none,
    some VIS.ITEM.TYPE.POINT, none⟩

/-- A second item, untouched by the C5 scenario. -/
def c5ItemB : Item := ⟨some "i2", none, none, none, some 5, none, none, none⟩

/-- Concrete document for the C5 witness. -/
def c5DataEx : Data :=
  { configuration := ⟨none, none, none⟩, groups := [],
    items := [c5ItemA, c5ItemB], item_categories := [], eras := [],
    markers := [] }

/-- Witness for C5: updating item "i1" of `c5DataEx` with only a new start
succeeds and rewrites exactly that field. -/
theorem updateItem_start_only_witness :
    (Json.updateItem (some (startOnlyPayload "i1" 7)) c5DataEx).ret = true ∧
    (Json.updateItem (some (startOnlyPayload "i1" 7)) c5DataEx).doc =
      { c5DataEx with items := [{ c5ItemA with start := some 7 }, c5ItemB] } := by
  have h := updateItem_start_only c5DataEx "i1" 7 [] [c5ItemB] c5ItemA
    (by simp [c5DataEx]) (by simp) (by simp [c5ItemA])
  exact ⟨h.1, h.2.1⟩

theorem materializeEra_id {kv : String × Era} {vi : VisItem}
    (h : materializeEra kv = some vi) : vi.id = kv.1 := by
  unfold materializeEra at h
  split_ifs at h
  simp_all
  rw [← h]

theorem materializeEras_cons_none {kv : String × Era} {rest : Smap Era}
    (hfk : materializeEra kv = none) :
    materializeEras (kv :: rest) = materializeEras rest := by
  simp only [materializeEras, List.filterMap_cons, hfk]

theorem materializeEras_cons_some {kv : String × Era} {rest : Smap Era}
    {vi : VisItem} (hfk : materializeEra kv = some vi) :
    materializeEras (kv :: rest) = vi :: materializeEras rest := by
  simp only [materializeEras, List.filterMap_cons, hfk]

theorem eraDiagnostics_cons_none {kv : String × Era} {rest : Smap Era}
    (h : eraDiagEntry kv = none) :
    eraDiagnostics (kv :: rest) = eraDiagnostics rest := by
  simp only [eraDiagnostics, List.filterMap_cons, h]

theorem eraDiagnostics_cons_some {kv : String × Era} {rest : Smap Era}
    {sE : String} (h : eraDiagEntry kv = some sE) :
    eraDiagnostics (kv :: rest) = sE :: eraDiagnostics rest := by
  simp only [eraDiagnostics, List.filterMap_cons, h]

theorem countP_cons_false {vi : VisItem} {l : List VisItem} {uuid : String}
    (hvid : (vi.id == uuid) = false) :
    (vi :: l).countP (fun v => v.id == uuid) =
      l.countP (fun v => v.id == uuid) := by
  simp [List.countP_cons, hvid]

theorem countP_cons_true {vi : VisItem} {l : List VisItem} {uuid : String}
    (hvid : (vi.id == uuid) = true) :
    (vi :: l).countP (fun v => v.id == uuid) =
      l.countP (fun v => v.id == uuid) + 1 := by
  simp [List.countP_cons, hvid]

theorem materializeEras_countP_eq_zero {eras : Smap Era} {uuid : String}
    (h : uuid ∉ eras.map Prod.fst) :
    (materializeEras eras).countP (fun v => v.id == uuid) = 0 := by
  induction eras with
  | nil => rfl
  | cons kv rest ih =>
    simp only [List.map_cons, List.mem_cons] at h
    push_neg at h
    obtain ⟨h1, h2⟩ := h
    cases hfk : materializeEra kv with
    | none =>
      rw [materializeEras_cons_none hfk]
      exact ih h2
    | some vi =>
      have hvid : (vi.id == uuid) = false := by
        rw [materializeEra_id hfk]
        simp only [beq_eq_false_iff_ne, ne_eq]
        exact fun hh => h1 hh.symm
      rw [materializeEras_cons_some hfk, countP_cons_false hvid]
      exact ih h2

/-- C6: in the era loop of `Timeline.refresh` over an eras map with unique
uuids, an era whose end is not strictly after its start is never
materialized and, when visible, is logged with a diagnostic; every visible
era with end strictly after start is materialized exactly once, as a
background-typed item keyed and styled by the era's uuid; an invisible era
is never materialized. The loop only reads the document (it fills the
widget's DataSets), so the eras map itself is untouched — `materializeEras`
is a pure function of it. -/
theorem era_materialization (eras : Smap Era) (uuid : String) (e : Era)
    (hnd : (eras.map Prod.fst).Nodup)
    (hmem : (uuid, e) ∈ eras) :
    (e.visible = false →
      (materializeEras eras).countP (fun v => v.id == uuid) = 0) ∧
    (e.visible = true → e.end_ ≤ e.start →
      (materializeEras eras).countP (fun v => v.id == uuid) = 0 ∧
      uuid ∈ eraDiagnostics eras) ∧
    (e.visible = true → e.start < e.end_ →
      (materializeEras eras).countP (fun v => v.id == uuid) = 1 ∧
      (⟨uuid, uuid, e.text, e.start, e.end_, VIS.ITEM.TYPE.BACKGROUND⟩ :
        VisItem) ∈ materializeEras eras) := by
  induction eras with
  | nil => simp at hmem
  | cons kv rest ih =>
    simp only [List.map_cons, List.nodup_cons] at hnd
    obtain ⟨hk, hnd2⟩ := hnd
    rcases List.mem_cons.mp hmem with hkv | hmem2
    · obtain rfl := hkv.symm
      have hkeys : uuid ∉ rest.map Prod.fst := hk
      have hc0 := materializeEras_countP_eq_zero hkeys
      refine ⟨?_, ?_, ?_⟩
      · intro hv
        have hfk : materializeEra (uuid, e) = none := by
          simp [materializeEra, hv]
        rw [materializeEras_cons_none hfk]
        exact hc0
      · intro hv hle
        have hfk : materializeEra (uuid, e) = none := by
          simp [materializeEra, hv, hle]
        constructor
        · rw [materializeEras_cons_none hfk]
          exact hc0
        · have hdk : eraDiagEntry (uuid, e) = some uuid := by
            simp [eraDiagEntry, hv, hle]
          rw [eraDiagnostics_cons_some hdk]
          exact List.mem_cons_self _ _
      · intro hv hlt
        have hfk : materializeEra (uuid, e) =
            some ⟨uuid, uuid, e.text, e.start, e.end_,
              VIS.ITEM.TYPE.BACKGROUND⟩ := by
          simp [materializeEra, hv, not_le.mpr hlt]
        constructor
        · rw [materializeEras_cons_some hfk, countP_cons_true (by simp),
            hc0]
        · rw [materializeEras_cons_some hfk]
          exact List.mem_cons_self _ _
    · have huuid_mem : uuid ∈ rest.map Prod.fst :=
        List.mem_map.mpr ⟨(uuid, e), hmem2, rfl⟩
      have hne : (kv.1 == uuid) = false := by
        simp only [beq_eq_false_iff_ne, ne_eq]
        exact fun hh => hk (hh ▸ huuid_mem)
      have ih2 := ih hnd2 hmem2
      refine ⟨?_, ?_, ?_⟩
      · intro hv
        have h0 := ih2.1 hv
        cases hfk : materializeEra kv with
        | none => rw [materializeEras_cons_none hfk]; exact h0
        | some vi =>
          have hvid : (vi.id == uuid) = false := by
            rw [materializeEra_id hfk]; exact hne
          rw [materializeEras_cons_some hfk, countP_cons_false hvid]
          exact h0
      · intro hv hle
        obtain ⟨h0, hdg⟩ := ih2.2.1 hv hle
        constructor
        · cases hfk : materializeEra kv with
          | none => rw [materializeEras_cons_none hfk]; exact h0
          | some vi =>
            have hvid : (vi.id == uuid) = false := by
              rw [materializeEra_id hfk]; exact hne
            rw [materializeEras_cons_some hfk, countP_cons_false hvid]
            exact h0
        · cases hdk : eraDiagEntry kv with
          | none => rw [eraDiagnostics_cons_none hdk]; exact hdg
          | some sE =>
            rw [eraDiagnostics_cons_some hdk]
            exact List.mem_cons_of_mem _ hdg
      · intro hv hlt
        obtain ⟨h1c, hmemv⟩ := ih2.2.2 hv hlt
        constructor
        · cases hfk : materializeEra kv with
          | none => rw [materializeEras_cons_none hfk]; exact h1c
          | some vi =>
            have hvid : (vi.id == uuid) = false := by
              rw [materializeEra_id hfk]; exact hne
            rw [materializeEras_cons_some hfk, countP_cons_false hvid]
            exact h1c
        · cases hfk : materializeEra kv with
          | none => rw [materializeEras_cons_none hfk]; exact hmemv
          | some vi =>
            rw [materializeEras_cons_some hfk]
            exact List.mem_cons_of_mem _ hmemv

/-- Eras map for the C6 witness: an invalid visible era, a valid visible
era, and a valid invisible era. -/
def erasEx : Smap Era :=
  [("e1", ⟨"Bad", 100, 50, "red", true⟩),
   ("e2", ⟨"Good", 0, 10, "blue", true⟩),
   ("e3", ⟨"Hidden", 0, 10, "green", false⟩)]

/-- Witness for C6 at `erasEx`: the invalid era e1 is skipped but logged,
the valid era e2 is materialized exactly once as background, the invisible
era e3 is not materialized. -/
theorem era_materialization_witness :
    ((materializeEras erasEx).countP (fun v => v.id == "e1") = 0 ∧
      "e1" ∈ eraDiagnostics erasEx) ∧
    ((materializeEras erasEx).countP (fun v => v.id == "e2") = 1 ∧
      (⟨"e2", "e2", "Good", 0, 10, VIS.ITEM.TYPE.BACKGROUND⟩ : VisItem) ∈
        materializeEras erasEx) ∧
    (materializeEras erasEx).countP (fun v => v.id == "e3") = 0 := by
  have hnd : ((erasEx : Smap Era).map Prod.fst).Nodup := by
    simp [erasEx]
  refine ⟨?_, ?_, ?_⟩
  · exact (era_materialization erasEx "e1" ⟨"Bad", 100, 50, "red", true⟩ hnd
      (by simp [erasEx])).2.1 rfl (by norm_num)
  · exact (era_materialization erasEx "e2" ⟨"Good", 0, 10, "blue", true⟩ hnd
      (by simp [erasEx])).2.2 rfl (by norm_num)
  · exact (era_materialization erasEx "e3" ⟨"Hidden", 0, 10, "green", false⟩
      hnd (by simp [erasEx])).1 rfl

theorem categoriesAfterUpdate_none (cats : Smap Category) :
    categoriesAfterUpdate none cats = cats := rfl

theorem categoriesAfterUpdate_seen {c : String} {cats : Smap Category}
    (h : Smap.has cats c = true) :
    categoriesAfterUpdate (some c) cats = cats := by
  simp [categoriesAfterUpdate, h]

theorem categoriesAfterUpdate_unseen {c : String} {cats : Smap Category}
    (h : Smap.has cats c = false) :
    categoriesAfterUpdate (some c) cats =
      cats ++ [(c, VIS.ITEM.DEFAULT_STYLE)] := by
  simp [categoriesAfterUpdate, h]

theorem categoriesAfterUpdate_sublist (cn : Option String)
    (cats : Smap Category) :
    List.Sublist cats (categoriesAfterUpdate cn cats) := by
  cases cn with
  | none => exact List.Sublist.refl _
  | some c =>
    by_cases hhas : Smap.has cats c = true
    · rw [categoriesAfterUpdate_seen hhas]
    · rw [categoriesAfterUpdate_unseen (by simpa using hhas)]
      exact List.sublist_append_left _ _

/-- The categories an `updateItem` scan returns depend only on the payload:
they are exactly `categoriesAfterUpdate` of the payload's `className`. -/
theorem updateItemGo_cats {p : Item} {cats : Smap Category}
    {items : List Item} {r : List Item × Smap Category}
    (h : updateItemGo p cats items = some r) :
    r.2 = categoriesAfterUpdate p.className cats := by
  induction items generalizing r with
  | nil => simp [updateItemGo] at h
  | cons item rest ih =>
    simp only [updateItemGo] at h
    by_cases hb : (item.id == p.id) = true
    · rw [if_pos hb] at h
      obtain rfl := Option.some.inj h
      rfl
    · rw [if_neg hb] at h
      cases hgo : updateItemGo p cats rest with
      | none => rw [hgo] at h; simp at h
      | some r2 =>
        obtain ⟨rest2, cats2⟩ := r2
        rw [hgo] at h
        obtain rfl := Option.some.inj h
        exact @ih (rest2, cats2) hgo

/-- C7: no Document Store mutation ever removes (or reorders, or overwrites)
an `item_categories` entry — for each of the fourteen operations the old
association list is a sublist of the new one; `addItem` and `updateItem` on
a payload whose `className` is unseen append exactly one entry holding the
default style; on a payload whose `className` is already present they leave
the categories untouched, so a repeated call creates no duplicate and
overwrites nothing. -/
theorem categories_monotone :
    (∀ name newId d, List.Sublist d.item_categories
      (Json.addGroup name newId d).doc.item_categories) ∧
    (∀ id d, List.Sublist d.item_categories
      (Json.removeGroup id d).doc.item_categories) ∧
    (∀ id name d, List.Sublist d.item_categories
      (Json.renameGroup id name d).doc.item_categories) ∧
    (∀ id d, List.Sublist d.item_categories
      (Json.toggleGroupVisibility id d).doc.item_categories) ∧
    (∀ data d, List.Sublist d.item_categories
      (Json.addItem data d).doc.item_categories) ∧
    (∀ data d, List.Sublist d.item_categories
      (Json.updateItem data d).doc.item_categories) ∧
    (∀ data d, List.Sublist d.item_categories
      (Json.removeItem data d).doc.item_categories) ∧
    (∀ uuid name date d, List.Sublist d.item_categories
      (Json.addMarker uuid name date d).doc.item_categories) ∧
    (∀ uuid d, List.Sublist d.item_categories
      (Json.removeMarker uuid d).doc.item_categories) ∧
    (∀ uuid name date d, List.Sublist d.item_categories
      (Json.updateMarker uuid name date d).doc.item_categories) ∧
    (∀ uuid text s e color d, List.Sublist d.item_categories
      (Json.addEra uuid text s e color d).doc.item_categories) ∧
    (∀ uuid d, List.Sublist d.item_categories
      (Json.removeEra uuid d).doc.item_categories) ∧
    (∀ uuid text s e color d, List.Sublist d.item_categories
      (Json.updateEra uuid text s e color d).doc.item_categories) ∧
    (∀ uuid d, List.Sublist d.item_categories
      (Json.toggleEraVisibility uuid d).doc.item_categories) ∧
    (∀ it d c, it.className = some c →
      Smap.has d.item_categories c = false →
      (Json.addItem (some it) d).ret = true →
      (Json.addItem (some it) d).doc.item_categories =
        d.item_categories ++ [(c, VIS.ITEM.DEFAULT_STYLE)]) ∧
    (∀ it d c, it.className = some c →
      Smap.has d.item_categories c = false →
      (Json.updateItem (some it) d).ret = true →
      (Json.updateItem (some it) d).doc.item_categories =
        d.item_categories ++ [(c, VIS.ITEM.DEFAULT_STYLE)]) ∧
    (∀ it d c, it.className = some c →
      Smap.has d.item_categories c = true →
      (Json.addItem (some it) d).doc.item_categories = d.item_categories ∧
      (Json.updateItem (some it) d).doc.item_categories =
        d.item_categories) := by
  refine ⟨?_, ?_, ?_, ?_, ?_, ?_, ?_, ?_, ?_, ?_, ?_, ?_, ?_, ?_, ?_, ?_, ?_⟩
  · intro name newId d
    simp only [Json.addGroup]
    by_cases hn : (name == "") = true
    · rw [if_pos hn]
    · rw [if_neg hn]
  · intro id d
    simp only [Json.removeGroup]
    cases hgo : removeGroupGo id d.groups with
    | none => exact List.Sublist.refl _
    | some r => obtain ⟨a, b⟩ := r; exact List.Sublist.refl _
  · intro id name d
    simp only [Json.renameGroup]
    by_cases hn : (name == "") = true
    · rw [if_pos hn]
    · rw [if_neg hn]
      cases hgo : renameGroupGo id name d.groups with
      | none => exact List.Sublist.refl _
      | some r => obtain ⟨a, b⟩ := r; exact List.Sublist.refl _
  · intro id d
    simp only [Json.toggleGroupVisibility]
    cases hgo : toggleGroupGo id d.groups with
    | none => exact List.Sublist.refl _
    | some r => obtain ⟨a, b⟩ := r; exact List.Sublist.refl _
  · intro data d
    cases data with
    | none => exact List.Sublist.refl _
    | some it =>
      simp only [Json.addItem]
      cases hid : it.id with
      | none => exact List.Sublist.refl _
      | some s =>
        by_cases hdup : (d.items.any fun x => x.id == some s) = true
        · rw [if_pos hdup]
        · rw [if_neg hdup]
          exact categoriesAfterUpdate_sublist it.className d.item_categories
  · intro data d
    cases data with
    | none => exact List.Sublist.refl _
    | some it =>
      simp only [Json.updateItem]
      cases hid : it.id with
      | none => exact List.Sublist.refl _
      | some s =>
        cases hgo : updateItemGo it d.item_categories d.items with
        | none => exact List.Sublist.refl _
        | some r =>
          obtain ⟨items2, cats2⟩ := r
          have hc := updateItemGo_cats hgo
          have h2 := categoriesAfterUpdate_sublist it.className
            d.item_categories
          rw [← hc] at h2
          exact h2
  · intro data d
    cases data with
    | none => exact List.Sublist.refl _
    | some it =>
      simp only [Json.removeItem]
      cases hid : it.id with
      | none => exact List.Sublist.refl _
      | some s =>
        cases hgo : removeItemGo (some s) d.items with
        | none => exact List.Sublist.refl _
        | some items2 => exact List.Sublist.refl _
  · intro uuid name date d
    simp only [Json.addMarker]
    by_cases hm : (Smap.has d.markers uuid) = true
    · rw [if_pos hm]
    · rw [if_neg hm]
  · intro uuid d
    simp only [Json.removeMarker]
    by_cases hm : (!(Smap.has d.markers uuid)) = true
    · rw [if_pos hm]
    · rw [if_neg hm]
  · intro uuid name date d
    simp only [Json.updateMarker]
    by_cases hm : (!(Smap.has d.markers uuid)) = true
    · rw [if_pos hm]
    · rw [if_neg hm]
  · intro uuid text s e color d
    simp only [Json.addEra]
    by_cases hm : (Smap.has d.eras uuid) = true
    · rw [if_pos hm]
    · rw [if_neg hm]
  · intro uuid d
    simp only [Json.removeEra]
    by_cases hm : (!(Smap.has d.eras uuid)) = true
    · rw [if_pos hm]
    · rw [if_neg hm]
  · intro uuid text s e color d
    simp only [Json.updateEra]
    by_cases hm : (!(Smap.has d.eras uuid)) = true
    · rw [if_pos hm]
    · rw [if_neg hm]
  · intro uuid d
    simp only [Json.toggleEraVisibility]
    by_cases hm : (!(Smap.has d.eras uuid)) = true
    · rw [if_pos hm]
    · rw [if_neg hm]
  · intro it d c hcn hnot hret
    simp only [Json.addItem] at hret ⊢
    cases hid : it.id with
    | none => simp only [hid] at hret; simp at hret
    | some s =>
      simp only [hid] at hret ⊢
      by_cases hdup : (d.items.any fun x => x.id == some s) = true
      · rw [if_pos hdup] at hret; simp at hret
      · rw [if_neg hdup]
        simp only [hcn, categoriesAfterUpdate_unseen hnot]
  · intro it d c hcn hnot hret
    simp only [Json.updateItem] at hret ⊢
    cases hid : it.id with
    | none => simp only [hid] at hret; simp at hret
    | some s =>
      simp only [hid] at hret ⊢
      cases hgo : updateItemGo it d.item_categories d.items with
      | none => rw [hgo] at hret; simp at hret
      | some r =>
        obtain ⟨items2, cats2⟩ := r
        have hc := updateItemGo_cats hgo
        rw [hcn, categoriesAfterUpdate_unseen hnot] at hc
        exact hc
  · intro it d c hcn hhas
    constructor
    · simp only [Json.addItem]
      cases hid : it.id with
      | none => rfl
      | some s =>
        by_cases hdup : (d.items.any fun x => x.id == some s) = true
        · rw [if_pos hdup]
        · rw [if_neg hdup]
          simp only [hcn, categoriesAfterUpdate_seen hhas]
    · simp only [Json.updateItem]
      cases hid : it.id with
      | none => rfl
      | some s =>
        cases hgo : updateItemGo it d.item_categories d.items with
        | none => rfl
        | some r =>
          obtain ⟨items2, cats2⟩ := r
          have hc := updateItemGo_cats hgo
          rw [hcn, categoriesAfterUpdate_seen hhas] at hc
          exact hc

/-- Payload with an unseen className for the C7 witness. -/
def c7Item1 : Item :=
  ⟨some "i9", none, none, some "cat1", none, none, none, none⟩

/-- A second payload reusing the same className. -/
def c7Item2 : Item :=
  ⟨some "i10", none, none, some "cat1", none, none, none, none⟩

/-- Empty document for the C7 witness. -/
def c7Data : Data :=
  { configuration := ⟨none, none, none⟩, groups := [], items := [],
    item_categories := [], eras := [], markers := [] }

/-- Witness for C7: the first `addItem` with className "cat1" appends exactly
the default-style entry; a second `addItem` with the same className leaves
the categories untouched. -/
theorem categories_monotone_witness :
    ((Json.addItem (some c7Item1) c7Data).doc.item_categories =
      c7Data.item_categories ++ [("cat1", VIS.ITEM.DEFAULT_STYLE)]) ∧
    ((Json.addItem (some c7Item2)
        (Json.addItem (some c7Item1) c7Data).doc).doc.item_categories =
      (Json.addItem (some c7Item1) c7Data).doc.item_categories) := by
  obtain ⟨g1, g2, g3, g4, g5, g6, g7, g8, g9, g10, g11, g12, g13, g14,
    hB, hC, hD⟩ := categories_monotone
  constructor
  · exact hB c7Item1 c7Data "cat1" rfl (by simp [c7Data, Smap.has])
      (by simp [Json.addItem, c7Item1, c7Data])
  · exact (hD c7Item2 (Json.addItem (some c7Item1) c7Data).doc "cat1" rfl
      (by simp [Json.addItem, c7Item1, c7Data, Smap.has,
        categoriesAfterUpdate])).1

/-- C8: `addMarker` on a fresh uuid succeeds; a second `addMarker` with the
same uuid returns false, changes nothing, and the marker keeps its original
name and date; and none of the three marker mutations ever dispatches a
change notification, successful or not. -/
theorem marker_duplicate_and_no_events (d : Data) (uuid n1 n2 : String)
    (t0 t1 : Int) (h : Smap.has d.markers uuid = false) :
    (Json.addMarker uuid n1 t0 d).ret = true ∧
    (Json.addMarker uuid n2 t1 (Json.addMarker uuid n1 t0 d).doc).ret =
      false ∧
    (Json.addMarker uuid n2 t1 (Json.addMarker uuid n1 t0 d).doc).doc =
      (Json.addMarker uuid n1 t0 d).doc ∧
    Smap.get (Json.addMarker uuid n2 t1
      (Json.addMarker uuid n1 t0 d).doc).doc.markers uuid =
      some ⟨n1, t0⟩ ∧
    (∀ u nm dt d2, (Json.addMarker u nm dt d2).events = 0) ∧
    (∀ u d2, (Json.removeMarker u d2).events = 0) ∧
    (∀ u nm dt d2, (Json.updateMarker u nm dt d2).events = 0) := by
  have hfalse : (Smap.has d.markers uuid = true) = False := by simp [h]
  have hdoc1 : (Json.addMarker uuid n1 t0 d).doc =
      { d with markers := d.markers ++ [(uuid, ⟨n1, t0⟩)] } := by
    simp only [Json.addMarker, hfalse, if_false]
  have hhasR : Smap.has
      ({ d with markers := d.markers ++ [(uuid, ⟨n1, t0⟩)] } : Data).markers
      uuid = true :=
    Smap.has_append_self d.markers uuid ⟨n1, t0⟩
  refine ⟨?_, ?_, ?_, ?_, ?_, ?_, ?_⟩
  · simp only [Json.addMarker, hfalse, if_false]
  · rw [hdoc1]
    simp only [Json.addMarker]
    rw [if_pos hhasR]
  · rw [hdoc1]
    simp only [Json.addMarker]
    rw [if_pos hhasR]
  · rw [hdoc1]
    simp only [Json.addMarker]
    rw [if_pos hhasR]
    exact Smap.get_append_self h
  · intro u nm dt d2
    simp only [Json.addMarker]
    by_cases hm : (Smap.has d2.markers u) = true
    · rw [if_pos hm]
    · rw [if_neg hm]
  · intro u d2
    simp only [Json.removeMarker]
    by_cases hm : (!(Smap.has d2.markers u)) = true
    · rw [if_pos hm]
    · rw [if_neg hm]
  · intro u nm dt d2
    simp only [Json.updateMarker]
    by_cases hm : (!(Smap.has d2.markers u)) = true
    · rw [if_pos hm]
    · rw [if_neg hm]

/-- Witness for C8 at a concrete document: adding marker "m1" named "Launch"
at time 100 to the empty `c7Data`, then adding "m1" again with another name
and date. -/
theorem marker_duplicate_and_no_events_witness :
    (Json.addMarker "m1" "Launch" 100 c7Data).ret = true ∧
    (Json.addMarker "m1" "Other" 200
      (Json.addMarker "m1" "Launch" 100 c7Data).doc).ret = false ∧
    Smap.get (Json.addMarker "m1" "Other" 200
      (Json.addMarker "m1" "Launch" 100 c7Data).doc).doc.markers "m1" =
      some ⟨"Launch", 100⟩ := by
  have h := marker_duplicate_and_no_events c7Data "m1" "Launch" "Other"
    100 200 (by simp [c7Data, Smap.has])
  exact ⟨h.1, h.2.1, h.2.2.2.1⟩

/-- C10: `addEra` on a uuid not present in the eras map returns true and
stores an era whose `visible` field is true, whatever the supplied text,
dates (equal ones included) and color. -/
theorem addEra_starts_visible (d : Data) (uuid text : String)
    (startDate endDate : Int) (color : String)
    (h : Smap.has d.eras uuid = false) :
    (Json.addEra uuid text startDate endDate color d).ret = true ∧
    Smap.get (Json.addEra uuid text startDate endDate color d).doc.eras
      uuid = some ⟨text, startDate, endDate, color, true⟩ := by
  have hfalse : (Smap.has d.eras uuid = true) = False := by simp [h]
  constructor
  · simp only [Json.addEra, hfalse, if_false]
  · simp only [Json.addEra, hfalse, if_false]
    exact Smap.get_append_self h

/-- Witness for C10 at a concrete document, with equal start and end dates:
the stored era is visible regardless. -/
theorem addEra_starts_visible_witness :
    (Json.addEra "e9" "Epoch" 50 50 "red" c7Data).ret = true ∧
    Smap.get (Json.addEra "e9" "Epoch" 50 50 "red" c7Data).doc.eras "e9" =
      some ⟨"Epoch", 50, 50, "red", true⟩ :=
  addEra_starts_visible c7Data "e9" "Epoch" 50 50 "red"
    (by simp [c7Data, Smap.has])

/-- Toggling is an involution on the search result: if the search for `id`
rewrote the forest `gs` into `gs2` (flipping one `visible` flag), searching
`gs2` follows the same path — ids and structure are unchanged — and flips
the flag back, restoring `gs` with the same event count. -/
theorem toggleGroupGo_involutive (id : String) :
    ∀ gs gs2 k, toggleGroupGo id gs = some (gs2, k) →
      toggleGroupGo id gs2 = some (gs, k) := by
  refine forestInduction ?_ ?_
  · intro gs2 k h
    simp only [toggleGroupGo] at h
    exact absurd h (by simp)
  · intro i n c p v childs gs ihc ihs gs2 k h
    simp only [toggleGroupGo] at h
    by_cases hid : (i == id) = true
    · rw [if_pos hid] at h
      have h2 : some (Group.mk i n c p (!v) childs :: gs, 1) =
          some (gs2, k) := h
      simp only [Option.some.injEq, Prod.mk.injEq] at h2
      obtain ⟨h3, h4⟩ := h2
      subst h3
      subst h4
      simp only [toggleGroupGo]
      rw [if_pos hid]
      simp [Bool.not_not]
    · rw [if_neg hid] at h
      cases hrc : toggleGroupGo id childs with
      | some rc =>
        obtain ⟨cs, kc⟩ := rc
        rw [hrc] at h
        have h2 : some (Group.mk i n c p v cs :: gs, kc + 1) =
            some (gs2, k) := h
        simp only [Option.some.injEq, Prod.mk.injEq] at h2
        obtain ⟨h3, h4⟩ := h2
        subst h3
        subst h4
        have ih2 := ihc cs kc hrc
        simp only [toggleGroupGo]
        rw [if_neg hid, ih2]
      | none =>
        rw [hrc] at h
        cases hrs : toggleGroupGo id gs with
        | some rs =>
          obtain ⟨gs3, ks⟩ := rs
          rw [hrs] at h
          have h2 : some (Group.mk i n c p v childs :: gs3, ks) =
              some (gs2, k) := h
          simp only [Option.some.injEq, Prod.mk.injEq] at h2
          obtain ⟨h3, h4⟩ := h2
          subst h3
          subst h4
          have ih2 := ihs gs3 ks hrs
          simp only [toggleGroupGo]
          rw [if_neg hid, hrc, ih2]
        | none =>
          rw [hrs] at h
          have h2 : (none : Option (List Group × Nat)) = some (gs2, k) := h
          exact absurd h2 (by simp)

/-- C9: on any id present in the forest, two successive
`toggleGroupVisibility` calls both return true and the second call restores
the document to exactly its state before the first — the flag is flipped
back and nothing else in any collection was modified. -/
theorem toggleGroupVisibility_twice (d : Data) (id : String)
    (h : (findDepthGo id d.groups).isSome = true) :
    (Json.toggleGroupVisibility id d).ret = true ∧
    (Json.toggleGroupVisibility id
      (Json.toggleGroupVisibility id d).doc).ret = true ∧
    (Json.toggleGroupVisibility id
      (Json.toggleGroupVisibility id d).doc).doc = d := by
  cases hgo : toggleGroupGo id d.groups with
  | none =>
    rw [toggleGroupGo_none_iff] at hgo
    rw [hgo] at h
    simp at h
  | some r =>
    obtain ⟨gs2, k⟩ := r
    have hinv := toggleGroupGo_involutive id d.groups gs2 k hgo
    have hdoc1 : (Json.toggleGroupVisibility id d).doc =
        { d with groups := gs2 } := by
      simp only [Json.toggleGroupVisibility]
      rw [hgo]
    refine ⟨?_, ?_, ?_⟩
    · simp only [Json.toggleGroupVisibility]
      rw [hgo]
    · rw [hdoc1]
      simp only [Json.toggleGroupVisibility]
      rw [hinv]
    · rw [hdoc1]
      simp only [Json.toggleGroupVisibility]
      rw [hinv]

/-- Witness for C9: toggling the nested group "b" of `nestedDataEx` twice
succeeds twice and restores the document exactly. -/
theorem toggleGroupVisibility_twice_witness :
    (Json.toggleGroupVisibility "b" nestedDataEx).ret = true ∧
    (Json.toggleGroupVisibility "b"
      (Json.toggleGroupVisibility "b" nestedDataEx).doc).doc =
      nestedDataEx := by
  have h := toggleGroupVisibility_twice nestedDataEx "b"
    (by simp [findDepthGo, nestedDataEx])
  exact ⟨h.1, h.2.2⟩

end Timeline
